import Mathlib

/-!
Verification development for the phone-number extraction tool in
src/phonenumber.py.  The Python source is shallowly embedded below:

* The character classes model the ASCII fragment of the Python regex
  classes "\d", "\s" and of str.strip, which is the fragment exercised by
  every property considered here.
* PHONE_REGEX (source lines 15-20, compiled with re.VERBOSE so that
  layout whitespace and comments are ignored) is embedded as a
  backtracking matcher over List Char.  Each combinator returns the list
  of possible (consumed, remainder) splits in the priority order of the
  Python backtracking engine (greedy quantifiers try longer consumption
  first); the engine keeps the first success, i.e. the head of the list.
* re.findall (source line 46) is embedded as a left-to-right scan that,
  at each position, takes the first match of the pattern, emits it, and
  resumes after the match (after one character when the match is empty,
  as the Python scanner does).
* Library calls made by the source (urllib.parse.urlparse,
  BeautifulSoup.get_text, pandas column assignment) are modelled by small
  definitions whose doc comments state the library behaviour they embed.
* Network effects are modelled by an oracle of type String → FetchOutcome
  passed to the embedded functions: requests.get together with
  raise_for_status either yields a body or raises, and the two except
  arms of extract_phone_numbers map the raised exception to a message.
-/

namespace PhoneExtract

/-- ASCII whitespace, the characters matched by the Python class "\s" and
stripped by str.strip on ASCII text: space, tab, newline, carriage return,
vertical tab and form feed. -/
def isSpaceChar (c : Char) : Bool :=
  c == ' ' || c == '\t' || c == '\n' || c == '\r' || c == '\x0b' || c == '\x0c'

/-- ASCII decimal digit, the characters matched by the Python class "\d" on
ASCII text. -/
def isDigitChar (c : Char) : Bool :=
  c.isDigit

/-- The separator class of PHONE_REGEX, written [-.\s] in the source:
hyphen, period or whitespace. -/
def isSepChar (c : Char) : Bool :=
  c == '-' || c == '.' || isSpaceChar c

/-- A matcher returns every (consumed, remainder) split it allows, listed
in the priority order of the Python backtracking engine. -/
abbrev Matcher := List Char → List (List Char × List Char)

/-- Matcher for a single character satisfying a predicate. -/
def mChar (p : Char → Bool) : Matcher := fun s =>
  match s with
  | [] => []
  | c :: r => if p c then [([c], r)] else []

/-- Matcher consuming nothing. -/
def mEps : Matcher := fun s => [([], s)]

/-- Sequencing of two matchers; alternatives of the first are explored in
order, and for each of them all alternatives of the second, which is the
backtracking order of a concatenation of regex groups. -/
def mSeq (a b : Matcher) : Matcher := fun s =>
  (a s).flatMap (fun yr => (b yr.2).map (fun zr => (yr.1 ++ zr.1, zr.2)))

/-- Greedy optional group, written X? in the source: the consuming
alternative is tried before the empty one. -/
def mOpt (a : Matcher) : Matcher := fun s =>
  a s ++ [([], s)]

/-- Matcher for exactly n characters satisfying a predicate. -/
def mExact (p : Char → Bool) : Nat → Matcher
  | 0 => mEps
  | n + 1 => mSeq (mChar p) (mExact p n)

/-- Greedy bounded repetition: ns lists the allowed repetition counts in
the order the greedy engine tries them (larger first), so that for example
mCounts isDigitChar [3, 2, 1] embeds the source group \d\x7b1,3\x7d. -/
def mCounts (p : Char → Bool) (ns : List Nat) : Matcher := fun s =>
  ns.flatMap (fun n => mExact p n s)

/-- Source lines 15-16: the group (?:\+?\d\x7b1,3\x7d[-.\s]?)? labelled
Country code, an optional plus sign, one to three digits and an optional
separator, the whole group optional. -/
def countryCode : Matcher :=
  mOpt (mSeq (mOpt (mChar (· == '+')))
             (mSeq (mCounts isDigitChar [3, 2, 1]) (mOpt (mChar isSepChar))))

/-- Source line 17: the group \(?\d\x7b2,3\x7d\)?[-.\s]? labelled Area
code: an optional opening parenthesis, two or three digits, an optional
closing parenthesis and an optional separator.  Note that the digits of
this group are not optional in the source pattern, only the parentheses
and the separator are. -/
def areaCode : Matcher :=
  mSeq (mOpt (mChar (· == '(')))
       (mSeq (mCounts isDigitChar [3, 2])
             (mSeq (mOpt (mChar (· == ')'))) (mOpt (mChar isSepChar))))

/-- Source line 18: the group \d\x7b3,4\x7d[-.\s]? labelled First part. -/
def firstPart : Matcher :=
  mSeq (mCounts isDigitChar [4, 3]) (mOpt (mChar isSepChar))

/-- Source line 19: the group \d\x7b3,4\x7d labelled Second part. -/
def secondPart : Matcher :=
  mCounts isDigitChar [4, 3]

/-- Source lines 15-20: PHONE_REGEX, the concatenation of the four groups
above (re.VERBOSE discards the layout whitespace and the comments of the
pattern string). -/
def PHONE_REGEX : Matcher :=
  mSeq countryCode (mSeq areaCode (mSeq firstPart secondPart))

/-- The match attempted at one position: the Python engine keeps the first
split in backtracking priority order. -/
def matchAtPos (s : List Char) : Option (List Char × List Char) :=
  (PHONE_REGEX s).head?

/-- Source line 46, re.findall: scan left to right; at each position take
the first match if any, emit it and resume after it (one character further
when the match is empty, as the Python scanner does); on failure advance
one character.  The fuel argument bounds the recursion and is instantiated
with the length of the text, which suffices because every step either
consumes the emitted match or one character. -/
def findAllAux : Nat → List Char → List (List Char)
  | 0, _ => []
  | _, [] => []
  | fuel + 1, c :: rest =>
    match matchAtPos (c :: rest) with
    | some (m, r) =>
      if m.isEmpty then m :: findAllAux fuel rest else m :: findAllAux fuel r
    | none => findAllAux fuel rest

/-- All matches of PHONE_REGEX in a text, in scan order. -/
def findAll (s : List Char) : List (List Char) :=
  findAllAux s.length s

/-- Python str.strip on ASCII text: remove leading and trailing
whitespace. -/
def stripChars (s : List Char) : List Char :=
  ((s.dropWhile isSpaceChar).reverse.dropWhile isSpaceChar).reverse

/-- Source line 47: keep the matches of length above seven (the length is
taken before stripping in the source), strip each survivor, and collapse
exact duplicates; the source builds a Python set, whose iteration order is
unspecified, modelled here by List.dedup. -/
def cleanedNumbers (text : List Char) : List (List Char) :=
  (((findAll text).filter (fun num => 7 < num.length)).map stripChars).dedup

/-- The same computation in the order the specification describes it:
strip each match first, then discard the ones whose stripped length is
seven or fewer, then collapse duplicates. -/
def cleanedNumbersSpec (text : List Char) : List (List Char) :=
  ((((findAll text).map stripChars).filter (fun num => 7 < num.length))).dedup

/-- Modelled from the library: BeautifulSoup together with get_text, as
called on source lines 42-43, concatenates every text node of the parsed
document.  Markup between angle brackets is dropped, but the character
data of script and style elements are text nodes and are therefore part
of the result; entity decoding is not modelled.  The flag is true while
the scan is inside a tag. -/
def getTextAux : Bool → List Char → List Char
  | _, [] => []
  | true, c :: r => if c == '>' then getTextAux false r else getTextAux true r
  | false, c :: r => if c == '<' then getTextAux true r else c :: getTextAux false r

/-- Text content of an HTML document, the model of soup.get_text(). -/
def getText (s : List Char) : List Char :=
  getTextAux false s

/-- Python str.strip lifted to String. -/
def pyStrip (s : String) : String :=
  (stripChars s.toList).asString

/-- Python str.startswith: the characters of p are an initial segment of
the characters of s. -/
def startswith (s p : String) : Bool :=
  p.toList.isPrefixOf s.toList

/-- Source lines 26-27: prepend https:// when the URL carries neither the
http:// nor the https:// prefix. -/
def normalizeUrl (url : String) : String :=
  if startswith url "http://" || startswith url "https://" then url
  else "https://" ++ url

/-- Modelled from the library: urllib.parse removes tab, carriage return
and newline characters from the URL before splitting it. -/
def urlsplitClean (u : List Char) : List Char :=
  u.filter (fun c => !(c == '\t' || c == '\n' || c == '\r'))

/-- Modelled from the library: for a URL that begins with http:// or
https://, as every URL produced by normalizeUrl does, urllib.parse.urlparse
returns as netloc the characters after the double slash up to the first
slash, question mark or hash sign; a string without such a prefix and
without a scheme-and-double-slash head parses to an empty netloc. -/
def netloc (u : String) : String :=
  let v := urlsplitClean u.toList
  let upTo : List Char → List Char :=
    fun s => s.takeWhile (fun c => !(c == '/' || c == '?' || c == '#'))
  if v.take 8 = "https://".toList then (upTo (v.drop 8)).asString
  else if v.take 7 = "http://".toList then (upTo (v.drop 7)).asString
  else ""

/-- Outcome of the network interaction of one call of
requests.get followed by raise_for_status (source lines 38-39), supplied
to the embedded functions as an oracle: either the body text of a
successful response, or the exception the call raised.  The two except
arms of the source distinguish requests.exceptions.RequestException,
which covers transport failures and the status error raised by
raise_for_status, from every other exception. -/
inductive FetchOutcome where
  | body (text : String)
  | requestException (message : String)
  | otherException (message : String)
deriving DecidableEq, Repr

/-- The dictionary returned by extract_phone_numbers: a status string, an
optional message (the success dictionary of source line 49 carries no
message key) and a list of numbers. -/
structure ExtractionResult where
  status : String
  message : Option String
  numbers : List String
deriving DecidableEq, Repr

/-- Source line 47 composed with the text extraction of lines 42-43: the
candidate numbers of one HTML document. -/
def extractNumbers (html : String) : List String :=
  (cleanedNumbers (getText html.toList)).map List.asString

/-- Source lines 22-54, extract_phone_numbers: normalize the URL, reject
it when its netloc is empty, otherwise fetch the page and extract the
candidate numbers; the two except arms turn exceptions into error
dictionaries with messages Request failed: ... and Error: ... . -/
def extract_phone_numbers (fetch : String → FetchOutcome) (url : String) :
    ExtractionResult :=
  let url1 := normalizeUrl url
  if netloc url1 = "" then
    { status := "error", message := some "Invalid URL", numbers := [] }
  else
    match fetch url1 with
    | .body text =>
        { status := "success", message := none, numbers := extractNumbers text }
    | .requestException m =>
        { status := "error", message := some ("Request failed: " ++ m), numbers := [] }
    | .otherException m =>
        { status := "error", message := some ("Error: " ++ m), numbers := [] }

/-- One entry of the results list built by the loop of main (source lines
105-136): the dictionary with keys url, phone_numbers and status.  A cell
read from the table is an Option String, none standing for a missing
value, for which pandas isna holds. -/
structure RowResult where
  url : Option String
  phone_numbers : String
  status : String
deriving DecidableEq, Repr

/-- Source lines 105-136: the body of the loop of main for one row, given
the cell of the selected URL column.  A missing or blank cell is recorded
as skipped without consulting the fetch oracle; otherwise the stripped
URL is passed to extract_phone_numbers and the result dictionary is
formatted. -/
def processRow (fetch : String → FetchOutcome) (cell : Option String) :
    RowResult :=
  match cell with
  | none => { url := none, phone_numbers := "No URL provided", status := "skipped" }
  | some s =>
    if pyStrip s = "" then
      { url := some s, phone_numbers := "No URL provided", status := "skipped" }
    else
      let url := pyStrip s
      let er := extract_phone_numbers fetch url
      if er.status = "success" then
        if er.numbers ≠ [] then
          { url := some url
            phone_numbers := String.intercalate " / " er.numbers
            status := "Found " ++ toString er.numbers.length ++ " numbers" }
        else
          { url := some url, phone_numbers := "No numbers found", status := "no numbers" }
      else
        { url := some url
          phone_numbers := "Error: " ++ er.message.getD "Unknown error"
          status := "error" }

/-- The full loop of main: one result is appended per input row, in input
order, including the skipped rows. -/
def runBatch (fetch : String → FetchOutcome) (cells : List (Option String)) :
    List RowResult :=
  cells.map (processRow fetch)

/-- The tabular dataset: a header of column names and rows of cells in
header order; a cell of none models a missing value. -/
structure Table where
  header : List String
  rows : List (List (Option String))
deriving DecidableEq, Repr

/-- Modelled from the library: assigning a column of a pandas DataFrame by
name, as on source lines 142-143, replaces the column in place when the
name is already present in the header and appends a new last column
otherwise. -/
def setColumn (t : Table) (name : String) (values : List (Option String)) :
    Table :=
  if name ∈ t.header then
    { header := t.header
      rows := (t.rows.zip values).map (fun rv => rv.1.set (t.header.indexOf name) rv.2) }
  else
    { header := t.header ++ [name]
      rows := (t.rows.zip values).map (fun rv => rv.1 ++ [rv.2]) }

/-- Source lines 105-143: the batch part of main.  The selected URL column
is looked up by name in the header; every row is processed in order, and
the two result columns Phone_Numbers and Extraction_Status are assigned to
the table. -/
def runMain (fetch : String → FetchOutcome) (t : Table) (urlColumn : String) :
    Table :=
  let j := t.header.indexOf urlColumn
  let results := t.rows.map (fun r => processRow fetch (r.getD j none))
  let t1 := setColumn t "Phone_Numbers" (results.map (fun r => some r.phone_numbers))
  setColumn t1 "Extraction_Status" (results.map (fun r => some r.status))

/-! Structural lemmas about the matcher combinators.  Only the forward
direction of each membership characterisation is needed: every split a
matcher can produce has the stated shape. -/

theorem mem_mChar {p : Char → Bool} {s x r : List Char}
    (h : (x, r) ∈ mChar p s) : ∃ c, s = c :: r ∧ p c = true ∧ x = [c] := by
  cases s with
  | nil => simp [mChar] at h
  | cons c t =>
    by_cases hp : p c = true
    · simp [mChar, hp] at h
      exact ⟨c, by rw [h.2], hp, by rw [h.1]⟩
    · simp [mChar, hp] at h

theorem mem_mEps {s x r : List Char} (h : (x, r) ∈ mEps s) :
    x = [] ∧ r = s := by
  simpa [mEps] using h

theorem mem_mSeq {a b : Matcher} {s x r : List Char}
    (h : (x, r) ∈ mSeq a b s) :
    ∃ y r₁ z, (y, r₁) ∈ a s ∧ (z, r) ∈ b r₁ ∧ x = y ++ z := by
  unfold mSeq at h
  rw [List.mem_flatMap] at h
  obtain ⟨⟨y, r₁⟩, hy, hz⟩ := h
  rw [List.mem_map] at hz
  obtain ⟨⟨z, r₂⟩, hz, heq⟩ := hz
  refine ⟨y, r₁, z, hy, ?_, ?_⟩
  · have hr : r₂ = r := congrArg Prod.snd heq
    rw [← hr]; exact hz
  · exact (congrArg Prod.fst heq).symm

theorem mem_mOpt {a : Matcher} {s x r : List Char}
    (h : (x, r) ∈ mOpt a s) : (x, r) ∈ a s ∨ (x = [] ∧ r = s) := by
  unfold mOpt at h
  rw [List.mem_append] at h
  rcases h with h | h
  · exact Or.inl h
  · right
    simpa using h

theorem mem_mOptChar {p : Char → Bool} {s x r : List Char}
    (h : (x, r) ∈ mOpt (mChar p) s) :
    x = [] ∨ ∃ c, p c = true ∧ x = [c] := by
  rcases mem_mOpt h with h | h
  · obtain ⟨c, _, hp, hx⟩ := mem_mChar h
    exact Or.inr ⟨c, hp, hx⟩
  · exact Or.inl h.1

theorem mem_mExact {p : Char → Bool} :
    ∀ {n : Nat} {s x r : List Char}, (x, r) ∈ mExact p n s →
      x.length = n ∧ (∀ c ∈ x, p c = true) ∧ s = x ++ r := by
  intro n
  induction n with
  | zero =>
    intro s x r h
    obtain ⟨hx, hr⟩ := mem_mEps h
    subst hx; subst hr
    exact ⟨rfl, by simp, rfl⟩
  | succ n ih =>
    intro s x r h
    obtain ⟨y, r₁, z, hy, hz, hx⟩ := mem_mSeq h
    obtain ⟨c, hs, hp, hyc⟩ := mem_mChar hy
    obtain ⟨hlen, hall, hsplit⟩ := ih hz
    subst hx; subst hyc; subst hs
    refine ⟨by simp [hlen], ?_, by simp [hsplit]⟩
    intro d hd
    rcases List.mem_append.mp hd with hd | hd
    · rw [List.mem_singleton.mp hd]; exact hp
    · exact hall d hd

theorem mem_mCounts {p : Char → Bool} {ns : List Nat} {s x r : List Char}
    (h : (x, r) ∈ mCounts p ns s) :
    x.length ∈ ns ∧ (∀ c ∈ x, p c = true) ∧ s = x ++ r := by
  unfold mCounts at h
  rw [List.mem_flatMap] at h
  obtain ⟨n, hn, hx⟩ := h
  obtain ⟨hlen, hall, hsplit⟩ := mem_mExact hx
  exact ⟨hlen ▸ hn, hall, hsplit⟩

/-- A digit run produced by mCounts with positive allowed lengths starts
with a digit. -/
theorem mCounts_digits_cons {s x r : List Char}
    (h : (x, r) ∈ mCounts isDigitChar [3, 2] s) :
    ∃ c t, x = c :: t ∧ isDigitChar c = true := by
  obtain ⟨hlen, hall, _⟩ := mem_mCounts h
  cases x with
  | nil => simp at hlen
  | cons c t => exact ⟨c, t, rfl, hall c (by simp)⟩

theorem countryCode_shape {s x r : List Char}
    (h : (x, r) ∈ countryCode s) :
    x = [] ∨ ∃ c t, x = c :: t ∧ (c = '+' ∨ isDigitChar c = true) := by
  rcases mem_mOpt h with h | h
  · obtain ⟨y, r₁, z, hy, hz, hx⟩ := mem_mSeq h
    obtain ⟨z₁, r₂, z₂, hz₁, _, hzsplit⟩ := mem_mSeq hz
    obtain ⟨hlen, hall, _⟩ := mem_mCounts hz₁
    have hz₁cons : ∃ c t, z₁ = c :: t ∧ isDigitChar c = true := by
      cases z₁ with
      | nil => simp at hlen
      | cons c t => exact ⟨c, t, rfl, hall c (by simp)⟩
    rcases mem_mOptChar hy with hy0 | ⟨c, hc, hyc⟩
    · obtain ⟨c, t, hz₁, hd⟩ := hz₁cons
      subst hx; subst hy0; subst hzsplit; subst hz₁
      exact Or.inr ⟨c, t ++ z₂, rfl, Or.inr hd⟩
    · have hplus : c = '+' := beq_iff_eq.mp hc
      subst hx; subst hyc; subst hplus
      exact Or.inr ⟨'+', z, rfl, Or.inl rfl⟩
  · exact Or.inl h.1

theorem areaCode_shape {s x r : List Char}
    (h : (x, r) ∈ areaCode s) :
    (∃ c t, x = c :: t ∧ (c = '(' ∨ isDigitChar c = true)) ∧
      2 ≤ x.countP (fun c => isDigitChar c) := by
  obtain ⟨y, r₁, z, hy, hz, hx⟩ := mem_mSeq h
  obtain ⟨z₁, r₂, z₂, hz₁, _, hzsplit⟩ := mem_mSeq hz
  obtain ⟨hlen, hall, _⟩ := mem_mCounts hz₁
  have hz₁count : 2 ≤ z₁.countP (fun c => isDigitChar c) := by
    have : z₁.countP (fun c => isDigitChar c) = z₁.length :=
      List.countP_eq_length.mpr (fun c hc => hall c hc)
    rw [this]
    simp at hlen
    rcases hlen with h | h <;> omega
  have hz₁cons : ∃ c t, z₁ = c :: t ∧ isDigitChar c = true := by
    cases z₁ with
    | nil => simp at hlen
    | cons c t => exact ⟨c, t, rfl, hall c (by simp)⟩
  have hzcount : 2 ≤ z.countP (fun c => isDigitChar c) := by
    subst hzsplit
    rw [List.countP_append]
    omega
  rcases mem_mOptChar hy with hy0 | ⟨c, hc, hyc⟩
  · obtain ⟨c, t, hz₁e, hd⟩ := hz₁cons
    subst hx; subst hy0; subst hzsplit; subst hz₁e
    constructor
    · exact ⟨c, t ++ z₂, rfl, Or.inr hd⟩
    · simpa using hzcount
  · have hpar : c = '(' := beq_iff_eq.mp hc
    subst hx; subst hyc; subst hpar
    constructor
    · exact ⟨'(', z, rfl, Or.inl rfl⟩
    · rw [List.countP_append]
      omega

theorem firstPart_count {s x r : List Char}
    (h : (x, r) ∈ firstPart s) :
    3 ≤ x.countP (fun c => isDigitChar c) := by
  obtain ⟨y, r₁, z, hy, _, hx⟩ := mem_mSeq h
  obtain ⟨hlen, hall, _⟩ := mem_mCounts hy
  have : y.countP (fun c => isDigitChar c) = y.length :=
    List.countP_eq_length.mpr (fun c hc => hall c hc)
  subst hx
  rw [List.countP_append, this]
  simp at hlen
  rcases hlen with h | h <;> omega

theorem secondPart_shape {s x r : List Char}
    (h : (x, r) ∈ secondPart s) :
    3 ≤ x.countP (fun c => isDigitChar c) ∧
      ∃ c, x.getLast? = some c ∧ isDigitChar c = true := by
  obtain ⟨hlen, hall, _⟩ := mem_mCounts h
  have hne : x ≠ [] := by
    intro hx
    subst hx
    simp at hlen
  have hcount : x.countP (fun c => isDigitChar c) = x.length :=
    List.countP_eq_length.mpr (fun c hc => hall c hc)
  refine ⟨?_, x.getLast hne, List.getLast?_eq_getLast x hne, ?_⟩
  · rw [hcount]
    simp at hlen
    rcases hlen with h | h <;> omega
  · exact hall _ (List.getLast_mem hne)

/-- Every split PHONE_REGEX can produce starts with a plus sign, an
opening parenthesis or a digit, ends with a digit, and contains at least
eight digits (two from the area group and three from each of the two
final groups; the country group is genuinely optional). -/
theorem PHONE_REGEX_shape {s m r : List Char}
    (h : (m, r) ∈ PHONE_REGEX s) :
    (∃ c t, m = c :: t ∧ (c = '+' ∨ c = '(' ∨ isDigitChar c = true)) ∧
      (∃ c, m.getLast? = some c ∧ isDigitChar c = true) ∧
      8 ≤ m.countP (fun c => isDigitChar c) := by
  obtain ⟨mc, r₁, m₂, hmc, hm₂, hm⟩ := mem_mSeq h
  obtain ⟨ma, r₂, m₃, hma, hm₃, hm₂e⟩ := mem_mSeq hm₂
  obtain ⟨m1, r₃, m2, hm1, hm2, hm₃e⟩ := mem_mSeq hm₃
  obtain ⟨⟨ca, ta, hae, hah⟩, hacount⟩ := areaCode_shape hma
  have h1count := firstPart_count hm1
  obtain ⟨h2count, c2, h2last, h2digit⟩ := secondPart_shape hm2
  have hm2ne : m2 ≠ [] := by
    intro he
    rw [he] at h2last
    simp at h2last
  subst hm; subst hm₂e; subst hm₃e
  refine ⟨?_, ?_, ?_⟩
  · rcases countryCode_shape hmc with hc0 | ⟨c, t, hce, hch⟩
    · subst hc0; subst hae
      exact ⟨ca, ta ++ (m1 ++ m2), rfl, Or.inr hah⟩
    · subst hce
      rcases hch with hch | hch
      · exact ⟨c, t ++ (ma ++ (m1 ++ m2)), rfl, Or.inl hch⟩
      · exact ⟨c, t ++ (ma ++ (m1 ++ m2)), rfl, Or.inr (Or.inr hch)⟩
  · refine ⟨c2, ?_, h2digit⟩
    rw [List.getLast?_append_of_ne_nil _ (by simp [hm2ne]),
        List.getLast?_append_of_ne_nil _ (by simp [hm2ne]),
        List.getLast?_append_of_ne_nil _ hm2ne]
    exact h2last
  · rw [List.countP_append, List.countP_append, List.countP_append]
    omega

/-- Characters recognised by isSpaceChar are not digits, not the plus
sign and not the opening parenthesis. -/
theorem isSpaceChar_cases {c : Char} (h : isSpaceChar c = true) :
    c = ' ' ∨ c = '\t' ∨ c = '\n' ∨ c = '\r' ∨ c = '\x0b' ∨ c = '\x0c' := by
  unfold isSpaceChar at h
  simp only [Bool.or_eq_true, beq_iff_eq] at h
  tauto

theorem not_space_of_head {c : Char}
    (h : c = '+' ∨ c = '(' ∨ isDigitChar c = true) : isSpaceChar c = false := by
  rcases h with rfl | rfl | h
  · decide
  · decide
  · cases hs : isSpaceChar c with
    | false => rfl
    | true =>
      exfalso
      rcases isSpaceChar_cases hs with rfl | rfl | rfl | rfl | rfl | rfl <;>
        simp [isDigitChar] at h

theorem not_space_of_digit {c : Char} (h : isDigitChar c = true) :
    isSpaceChar c = false :=
  not_space_of_head (Or.inr (Or.inr h))

/-- A list whose first and last characters are not whitespace is fixed by
stripping. -/
theorem stripChars_eq_self {m : List Char} {c d : Char} {t : List Char}
    (hm : m = c :: t) (hc : isSpaceChar c = false)
    (hd : m.getLast? = some d) (hdn : isSpaceChar d = false) :
    stripChars m = m := by
  unfold stripChars
  have hfront : m.dropWhile isSpaceChar = m := by
    rw [hm, List.dropWhile_cons, hc]
    simp
  rw [hfront]
  have hrev : m.reverse.head? = some d := by
    rw [List.head?_reverse]
    exact hd
  have hback : m.reverse.dropWhile isSpaceChar = m.reverse := by
    cases hr : m.reverse with
    | nil => simp
    | cons e t₂ =>
      rw [hr] at hrev
      rw [List.head?_cons] at hrev
      have : e = d := Option.some.inj hrev
      subst this
      rw [List.dropWhile_cons, hdn]
      simp
  rw [hback, List.reverse_reverse]

/-- Every element of findAll is a split PHONE_REGEX produced on some
suffix of the text. -/
theorem mem_findAllAux {m : List Char} :
    ∀ {fuel : Nat} {s : List Char}, m ∈ findAllAux fuel s →
      ∃ s₂ r, (m, r) ∈ PHONE_REGEX s₂ := by
  intro fuel
  induction fuel with
  | zero =>
    intro s h
    simp [findAllAux] at h
  | succ fuel ih =>
    intro s h
    cases s with
    | nil => simp [findAllAux] at h
    | cons c rest =>
      rw [findAllAux] at h
      cases hm : matchAtPos (c :: rest) with
      | none =>
        rw [hm] at h
        exact ih h
      | some p =>
        obtain ⟨m₀, r₀⟩ := p
        rw [hm] at h
        have hmem : (m₀, r₀) ∈ PHONE_REGEX (c :: rest) := by
          unfold matchAtPos at hm
          exact List.mem_of_mem_head? hm
        by_cases he : m₀.isEmpty
        all_goals
          simp only [he, if_true, if_false, Bool.false_eq_true, if_neg,
            List.mem_cons, reduceIte] at h
        all_goals
          rcases h with rfl | h
        · exact ⟨c :: rest, r₀, hmem⟩
        · exact ih h
        · exact ⟨c :: rest, r₀, hmem⟩
        · exact ih h

theorem mem_findAll {m text : List Char} (h : m ∈ findAll text) :
    ∃ s₂ r, (m, r) ∈ PHONE_REGEX s₂ :=
  mem_findAllAux h

/-- Every match of PHONE_REGEX is fixed by stripping. -/
theorem match_strip_eq {s m r : List Char} (h : (m, r) ∈ PHONE_REGEX s) :
    stripChars m = m := by
  obtain ⟨⟨c, t, hm, hc⟩, ⟨d, hd, hdd⟩, _⟩ := PHONE_REGEX_shape h
  exact stripChars_eq_self hm (not_space_of_head hc) hd (not_space_of_digit hdd)

/-- Membership in cleanedNumbers: exactly the matches of length above
seven, each fixed by stripping. -/
theorem mem_cleanedNumbers {text c : List Char} :
    c ∈ cleanedNumbers text ↔ c ∈ findAll text ∧ 7 < c.length := by
  unfold cleanedNumbers
  rw [List.mem_dedup, List.mem_map]
  constructor
  · rintro ⟨m, hm, rfl⟩
    rw [List.mem_filter] at hm
    obtain ⟨s₂, r, hmem⟩ := mem_findAll hm.1
    rw [match_strip_eq hmem]
    exact ⟨hm.1, by simpa using hm.2⟩
  · rintro ⟨hc, hlen⟩
    refine ⟨c, List.mem_filter.mpr ⟨hc, by simpa using hlen⟩, ?_⟩
    obtain ⟨s₂, r, hmem⟩ := mem_findAll hc
    exact match_strip_eq hmem

/-- The shape facts transported to the candidates of cleanedNumbers. -/
theorem cleanedNumbers_shape {text c : List Char}
    (h : c ∈ cleanedNumbers text) :
    (∃ d t, c = d :: t ∧ (d = '+' ∨ d = '(' ∨ isDigitChar d = true)) ∧
      (∃ d, c.getLast? = some d ∧ isDigitChar d = true) ∧
      8 ≤ c.countP (fun d => isDigitChar d) ∧
      stripChars c = c ∧ 7 < c.length := by
  obtain ⟨hc, hlen⟩ := mem_cleanedNumbers.mp h
  obtain ⟨s₂, r, hmem⟩ := mem_findAll hc
  obtain ⟨h1, h2, h3⟩ := PHONE_REGEX_shape hmem
  exact ⟨h1, h2, h3, match_strip_eq hmem, hlen⟩

/-- Stripping fixes every match found in a text. -/
theorem findAll_strip_fix {text m : List Char} (h : m ∈ findAll text) :
    stripChars m = m := by
  obtain ⟨s₂, r, hmem⟩ := mem_findAll h
  exact match_strip_eq hmem

/-- C4, counterexample: the source pattern does not match a bare
seven-digit number such as 123-4567, because the area-code group demands
two or three digits of its own; the claim that the matcher does not
require the area code to be present is therefore false on the code. -/
theorem c4_counterexample :
    findAll ("123-4567".toList) = [] ∧ cleanedNumbers ("123-4567".toList) = [] := by
  exact ⟨by decide, by decide⟩

/-- C4 (amended): the pattern consists of an optional country code
(optional plus sign, one to three digits, optional separator), a
mandatory group of two or three digits with optional parentheses and
separator, a group of three or four digits with optional separator, and a
final group of three or four digits; hence every match carries at least
eight digits, while the country code, the parentheses and every separator
are genuinely optional. -/
theorem c4_amended :
    (∀ s m r, (m, r) ∈ PHONE_REGEX s → 8 ≤ m.countP (fun c => isDigitChar c)) ∧
    findAll ("(555) 123-4567".toList) = ["(555) 123-4567".toList] ∧
    findAll ("12345678".toList) = ["12345678".toList] := by
  refine ⟨?_, by decide, by decide⟩
  intro s m r h
  exact (PHONE_REGEX_shape h).2.2

/-- Witness for c4_amended at a concrete match. -/
theorem c4_witness :
    ("12345678".toList, ([] : List Char)) ∈ PHONE_REGEX ("12345678".toList) ∧
      8 ≤ ("12345678".toList).countP (fun c => isDigitChar c) :=
  ⟨by decide, c4_amended.1 ("12345678".toList) ("12345678".toList) [] (by decide)⟩

/-- C5: every candidate returned by the extractor has trimmed length
strictly above seven, so any match of trimmed length seven or fewer is
discarded, and in particular the string 1234 is never returned for any
input text. -/
theorem c5_length_filter :
    (∀ text c, c ∈ cleanedNumbers text →
      7 < (stripChars c).length ∧ 7 < c.length) ∧
    (∀ text, "1234".toList ∉ cleanedNumbers text) := by
  have h : ∀ text c, c ∈ cleanedNumbers text →
      7 < (stripChars c).length ∧ 7 < c.length := by
    intro text c hc
    obtain ⟨_, _, _, hstrip, hlen⟩ := cleanedNumbers_shape hc
    rw [hstrip]
    exact ⟨hlen, hlen⟩
  refine ⟨h, ?_⟩
  intro text hmem
  have hlen := (h text _ hmem).2
  exact absurd hlen (by decide)

/-- Witness for c5_length_filter at a concrete candidate. -/
theorem c5_witness :
    "555-123-4567".toList ∈ cleanedNumbers ("Call 555-123-4567".toList) ∧
      7 < (stripChars ("555-123-4567".toList)).length :=
  ⟨by decide,
    (c5_length_filter.1 ("Call 555-123-4567".toList) ("555-123-4567".toList)
      (by decide)).1⟩

/-- C6: the extractor never returns duplicate candidates, and a text
containing the same phone-shaped substring twice, which produces two
equal raw matches, yields that candidate exactly once. -/
theorem c6_dedup :
    (∀ text, (cleanedNumbers text).Nodup) ∧
    findAll ("Call 555-123-4567 or 555-123-4567".toList) =
      ["555-123-4567".toList, "555-123-4567".toList] ∧
    (cleanedNumbers ("Call 555-123-4567 or 555-123-4567".toList)).count
      ("555-123-4567".toList) = 1 := by
  refine ⟨?_, by decide, by decide⟩
  intro text
  unfold cleanedNumbers
  exact List.nodup_dedup _

/-- C10: every candidate starts with a plus sign, an opening parenthesis
or a digit and ends with a digit, is therefore fixed by trimming and
longer than seven characters, and consequently the filter of the source,
applied before stripping, computes the same result as the trim-then-filter
rule of the specification on every text. -/
theorem c10_candidate_form :
    (∀ text c, c ∈ cleanedNumbers text →
      (∃ d t, c = d :: t ∧ (d = '+' ∨ d = '(' ∨ isDigitChar d = true)) ∧
      (∃ d, c.getLast? = some d ∧ isDigitChar d = true) ∧
      stripChars c = c ∧ 7 < c.length) ∧
    (∀ text, cleanedNumbers text = cleanedNumbersSpec text) := by
  constructor
  · intro text c hc
    obtain ⟨h1, h2, _, h4, h5⟩ := cleanedNumbers_shape hc
    exact ⟨h1, h2, h4, h5⟩
  · intro text
    unfold cleanedNumbers cleanedNumbersSpec
    have hmap : (findAll text).map stripChars = findAll text := by
      have he : (findAll text).map stripChars = (findAll text).map id :=
        List.map_congr_left (fun m hm => findAll_strip_fix hm)
      rw [he, List.map_id]
    have hfix : ((findAll text).filter (fun num => 7 < num.length)).map stripChars
        = (findAll text).filter (fun num => 7 < num.length) := by
      have he : ((findAll text).filter (fun num => 7 < num.length)).map stripChars
          = ((findAll text).filter (fun num => 7 < num.length)).map id :=
        List.map_congr_left
          (fun m hm => findAll_strip_fix (List.mem_filter.mp hm).1)
      rw [he, List.map_id]
    rw [hmap, hfix]

/-- Witness for c10_candidate_form at a concrete candidate. -/
theorem c10_witness :
    "555-123-4567".toList ∈ cleanedNumbers ("Call 555-123-4567".toList) ∧
    (∃ d t, "555-123-4567".toList = d :: t ∧
      (d = '+' ∨ d = '(' ∨ isDigitChar d = true)) ∧
    stripChars ("555-123-4567".toList) = "555-123-4567".toList :=
  ⟨by decide,
    (c10_candidate_form.1 ("Call 555-123-4567".toList) ("555-123-4567".toList)
      (by decide)).1,
    (c10_candidate_form.1 ("Call 555-123-4567".toList) ("555-123-4567".toList)
      (by decide)).2.2.1⟩

/-! Helper lemmas for the batch runner. -/

theorem zip_map_getElem? {α β γ : Type _} :
    ∀ (l₁ : List α) (l₂ : List β) (f : α × β → γ) (i : Nat) (a : α) (b : β),
      l₁[i]? = some a → l₂[i]? = some b →
      ((l₁.zip l₂).map f)[i]? = some (f (a, b))
  | [], _, _, _, _, _, h₁, _ => by simp at h₁
  | _ :: _, [], _, _, _, _, _, h₂ => by simp at h₂
  | x :: l₁, y :: l₂, f, 0, a, b, h₁, h₂ => by
    simp only [List.getElem?_cons_zero, Option.some.injEq] at h₁ h₂
    simp [List.zip_cons_cons, h₁, h₂]
  | x :: l₁, y :: l₂, f, i + 1, a, b, h₁, h₂ => by
    simp only [List.getElem?_cons_succ] at h₁ h₂
    simpa [List.zip_cons_cons] using zip_map_getElem? l₁ l₂ f i a b h₁ h₂

theorem processRow_skip_none (fetch : String → FetchOutcome) :
    processRow fetch none =
      { url := none, phone_numbers := "No URL provided", status := "skipped" } :=
  rfl

theorem processRow_skip_blank (fetch : String → FetchOutcome) (s : String)
    (h : pyStrip s = "") :
    processRow fetch (some s) =
      { url := some s, phone_numbers := "No URL provided", status := "skipped" } := by
  simp only [processRow, if_pos h]

theorem processRow_nonblank (fetch : String → FetchOutcome) (s : String)
    (h : ¬ pyStrip s = "") :
    processRow fetch (some s) =
      (let er := extract_phone_numbers fetch (pyStrip s)
       if er.status = "success" then
         if er.numbers ≠ [] then
           { url := some (pyStrip s)
             phone_numbers := String.intercalate " / " er.numbers
             status := "Found " ++ toString er.numbers.length ++ " numbers" }
         else
           { url := some (pyStrip s), phone_numbers := "No numbers found",
             status := "no numbers" }
       else
         { url := some (pyStrip s)
           phone_numbers := "Error: " ++ er.message.getD "Unknown error"
           status := "error" }) := by
  simp only [processRow, if_neg h]

theorem extract_phone_numbers_body (fetch : String → FetchOutcome)
    (url body : String) (h : ¬ netloc (normalizeUrl url) = "")
    (hb : fetch (normalizeUrl url) = FetchOutcome.body body) :
    extract_phone_numbers fetch url =
      { status := "success", message := none, numbers := extractNumbers body } := by
  unfold extract_phone_numbers
  rw [if_neg h, hb]

theorem extract_phone_numbers_request_exn (fetch : String → FetchOutcome)
    (url msg : String) (h : ¬ netloc (normalizeUrl url) = "")
    (hb : fetch (normalizeUrl url) = FetchOutcome.requestException msg) :
    extract_phone_numbers fetch url =
      { status := "error", message := some ("Request failed: " ++ msg),
        numbers := [] } := by
  unfold extract_phone_numbers
  rw [if_neg h, hb]

theorem extract_phone_numbers_other_exn (fetch : String → FetchOutcome)
    (url msg : String) (h : ¬ netloc (normalizeUrl url) = "")
    (hb : fetch (normalizeUrl url) = FetchOutcome.otherException msg) :
    extract_phone_numbers fetch url =
      { status := "error", message := some ("Error: " ++ msg), numbers := [] } := by
  unfold extract_phone_numbers
  rw [if_neg h, hb]

theorem setColumn_new_header {t : Table} {name : String}
    {v : List (Option String)} (h : name ∉ t.header) :
    (setColumn t name v).header = t.header ++ [name] := by
  unfold setColumn
  rw [if_neg h]

theorem setColumn_new_rowlen {t : Table} {name : String}
    {v : List (Option String)} (h : name ∉ t.header) :
    (setColumn t name v).rows.length = min t.rows.length v.length := by
  unfold setColumn
  rw [if_neg h]
  simp

theorem setColumn_new_row {t : Table} {name : String}
    {v : List (Option String)} {i : Nat} {row : List (Option String)}
    {val : Option String} (h : name ∉ t.header)
    (hi : t.rows[i]? = some row) (hv : v[i]? = some val) :
    (setColumn t name v).rows[i]? = some (row ++ [val]) := by
  unfold setColumn
  rw [if_neg h]
  exact zip_map_getElem? t.rows v _ i row val hi hv

/-- C1, counterexample: when the input table already carries a column
named Phone_Numbers, the assignment of source line 142 overwrites that
column in place instead of appending a new one, so the output is not the
input table with two columns appended: the header gains only one column
and the original cell value is lost. -/
theorem c1_counterexample :
    runMain (fun _ => FetchOutcome.requestException "down")
        { header := ["Phone_Numbers"], rows := [[some "x"]] } "Phone_Numbers" =
      { header := ["Phone_Numbers", "Extraction_Status"],
        rows := [[some "Error: Request failed: down", some "error"]] } ∧
    (runMain (fun _ => FetchOutcome.requestException "down")
        { header := ["Phone_Numbers"], rows := [[some "x"]] } "Phone_Numbers").header ≠
      ["Phone_Numbers"] ++ ["Phone_Numbers", "Extraction_Status"] := by
  exact ⟨by decide, by decide⟩

/-- C1 (amended): provided the input header contains neither
Phone_Numbers nor Extraction_Status, the batch runner produces exactly
one row result per input row in input order: the output header is the
input header with those two columns appended, the row count is unchanged,
and each output row is the corresponding input row with exactly its
phone-string and status cells appended. -/
theorem c1_output_shape (fetch : String → FetchOutcome) (t : Table)
    (urlColumn : String) (hP : "Phone_Numbers" ∉ t.header)
    (hE : "Extraction_Status" ∉ t.header) :
    (runMain fetch t urlColumn).header =
      t.header ++ ["Phone_Numbers", "Extraction_Status"] ∧
    (runMain fetch t urlColumn).rows.length = t.rows.length ∧
    (∀ (i : Nat) row, t.rows[i]? = some row →
      (runMain fetch t urlColumn).rows[i]? = some (row ++
        [some (processRow fetch
            (row.getD (t.header.indexOf urlColumn) none)).phone_numbers,
         some (processRow fetch
            (row.getD (t.header.indexOf urlColumn) none)).status])) := by
  have hE1 : "Extraction_Status" ∉ t.header ++ ["Phone_Numbers"] := by
    intro hmem
    rcases List.mem_append.mp hmem with h | h
    · exact hE h
    · rw [List.mem_singleton] at h
      exact absurd h (by decide)
  have hE2 : "Extraction_Status" ∉
      (setColumn t "Phone_Numbers"
        ((t.rows.map (fun r =>
            processRow fetch (r.getD (t.header.indexOf urlColumn) none))).map
          (fun r => some r.phone_numbers))).header := by
    rw [setColumn_new_header hP]
    exact hE1
  refine ⟨?_, ?_, ?_⟩
  · simp only [runMain]
    rw [setColumn_new_header hE2, setColumn_new_header hP, List.append_assoc]
    rfl
  · simp only [runMain]
    rw [setColumn_new_rowlen hE2, setColumn_new_rowlen hP]
    simp
  · intro i row hi
    simp only [runMain]
    have hv1 : ((t.rows.map (fun r =>
        processRow fetch (r.getD (t.header.indexOf urlColumn) none))).map
          (fun r => some r.phone_numbers))[i]? =
        some (some (processRow fetch
          (row.getD (t.header.indexOf urlColumn) none)).phone_numbers) := by
      rw [List.getElem?_map, List.getElem?_map, hi]
      rfl
    have hv2 : ((t.rows.map (fun r =>
        processRow fetch (r.getD (t.header.indexOf urlColumn) none))).map
          (fun r => some r.status))[i]? =
        some (some (processRow fetch
          (row.getD (t.header.indexOf urlColumn) none)).status) := by
      rw [List.getElem?_map, List.getElem?_map, hi]
      rfl
    have h1 := setColumn_new_row (t := t) hP hi hv1
    have h2 := setColumn_new_row hE2 h1 hv2
    rw [h2, List.append_assoc]
    rfl

/-- Witness for c1_output_shape at a concrete table. -/
theorem c1_witness :
    "Phone_Numbers" ∉ (["url"] : List String) ∧
    "Extraction_Status" ∉ (["url"] : List String) ∧
    (runMain (fun _ => FetchOutcome.requestException "down")
        { header := ["url"], rows := [[some "a.com"]] } "url").header =
      ["url"] ++ ["Phone_Numbers", "Extraction_Status"] ∧
    (runMain (fun _ => FetchOutcome.requestException "down")
        { header := ["url"], rows := [[some "a.com"]] } "url").rows.length = 1 := by
  have h := c1_output_shape (fun _ => FetchOutcome.requestException "down")
    { header := ["url"], rows := [[some "a.com"]] } "url"
    (by decide) (by decide)
  exact ⟨by decide, by decide, h.1, h.2.1⟩

/-- C2: for a row whose cell is non-blank, whose normalized URL has a
host and whose fetch succeeds, a non-empty candidate list of n elements
yields status Found n numbers with the candidates joined by the three
character separator slash-with-spaces, an empty candidate list yields
status no numbers with phone-string No numbers found, and a failing fetch
yields status error with phone-string Error: followed by the failure
message. -/
theorem c2_row_formatting (fetch : String → FetchOutcome) (s : String)
    (h1 : pyStrip s ≠ "") (h2 : netloc (normalizeUrl (pyStrip s)) ≠ "") :
    (∀ body, fetch (normalizeUrl (pyStrip s)) = FetchOutcome.body body →
      (extractNumbers body ≠ [] →
        (processRow fetch (some s)).status =
          "Found " ++ toString (extractNumbers body).length ++ " numbers" ∧
        (processRow fetch (some s)).phone_numbers =
          String.intercalate " / " (extractNumbers body)) ∧
      (extractNumbers body = [] →
        (processRow fetch (some s)).status = "no numbers" ∧
        (processRow fetch (some s)).phone_numbers = "No numbers found")) ∧
    (∀ msg, fetch (normalizeUrl (pyStrip s)) = FetchOutcome.requestException msg →
      (processRow fetch (some s)).status = "error" ∧
      (processRow fetch (some s)).phone_numbers =
        "Error: " ++ ("Request failed: " ++ msg)) ∧
    (∀ msg, fetch (normalizeUrl (pyStrip s)) = FetchOutcome.otherException msg →
      (processRow fetch (some s)).status = "error" ∧
      (processRow fetch (some s)).phone_numbers =
        "Error: " ++ ("Error: " ++ msg)) := by
  refine ⟨?_, ?_, ?_⟩
  · intro body hb
    rw [processRow_nonblank fetch s h1,
        extract_phone_numbers_body fetch _ body h2 hb]
    constructor
    · intro hne
      simp [hne]
    · intro he
      simp [he]
  · intro msg hb
    rw [processRow_nonblank fetch s h1,
        extract_phone_numbers_request_exn fetch _ msg h2 hb]
    exact ⟨rfl, rfl⟩
  · intro msg hb
    rw [processRow_nonblank fetch s h1,
        extract_phone_numbers_other_exn fetch _ msg h2 hb]
    exact ⟨rfl, rfl⟩

/-- Witness for c2_row_formatting at concrete rows. -/
theorem c2_witness :
    pyStrip "a.com" ≠ "" ∧
    netloc (normalizeUrl (pyStrip "a.com")) ≠ "" ∧
    (processRow (fun _ => FetchOutcome.body "<p>Call 555-123-4567</p>")
        (some "a.com")).status = "Found 1 numbers" ∧
    (processRow (fun _ => FetchOutcome.body "<p>Call 555-123-4567</p>")
        (some "a.com")).phone_numbers = "555-123-4567" ∧
    (processRow (fun _ => FetchOutcome.requestException "boom")
        (some "a.com")).status = "error" ∧
    (processRow (fun _ => FetchOutcome.requestException "boom")
        (some "a.com")).phone_numbers = "Error: Request failed: boom" := by
  have hb := c2_row_formatting
    (fun _ => FetchOutcome.body "<p>Call 555-123-4567</p>") "a.com"
    (by decide) (by decide)
  have he := c2_row_formatting
    (fun _ => FetchOutcome.requestException "boom") "a.com"
    (by decide) (by decide)
  have hb1 := (hb.1 "<p>Call 555-123-4567</p>" rfl).1 (by decide)
  have he1 := he.2.1 "boom" rfl
  exact ⟨by decide, by decide, hb1.1.trans (by decide), hb1.2.trans (by decide),
    he1.1, he1.2.trans (by decide)⟩

/-- C3: every failure is caught at the row boundary and recorded in that
row, and processing never aborts: the batch always yields one result per
input row, each row result depends only on that row and the oracle, a
transport or status failure is recorded as an error result for its own
row, and an invalid URL is recorded as an error result for its own row. -/
theorem c3_row_isolation (fetch : String → FetchOutcome)
    (cells : List (Option String)) :
    (runBatch fetch cells).length = cells.length ∧
    (∀ (i : Nat) cell, cells[i]? = some cell →
      (runBatch fetch cells)[i]? = some (processRow fetch cell)) ∧
    (∀ (i : Nat) s msg, cells[i]? = some (some s) → pyStrip s ≠ "" →
      netloc (normalizeUrl (pyStrip s)) ≠ "" →
      fetch (normalizeUrl (pyStrip s)) = FetchOutcome.requestException msg →
      (runBatch fetch cells)[i]? = some
        { url := some (pyStrip s)
          phone_numbers := "Error: " ++ ("Request failed: " ++ msg)
          status := "error" }) ∧
    (∀ (i : Nat) s, cells[i]? = some (some s) → pyStrip s ≠ "" →
      netloc (normalizeUrl (pyStrip s)) = "" →
      (runBatch fetch cells)[i]? = some
        { url := some (pyStrip s), phone_numbers := "Error: Invalid URL"
          status := "error" }) := by
  have hpt : ∀ (i : Nat) cell, cells[i]? = some cell →
      (runBatch fetch cells)[i]? = some (processRow fetch cell) := by
    intro i cell hc
    unfold runBatch
    rw [List.getElem?_map, hc]
    rfl
  refine ⟨by unfold runBatch; exact List.length_map _ _, hpt, ?_, ?_⟩
  · intro i s msg hc hs hn hf
    rw [hpt i (some s) hc, processRow_nonblank fetch s hs,
        extract_phone_numbers_request_exn fetch _ msg hn hf]
    rfl
  · intro i s hc hs hn
    have hinv : extract_phone_numbers fetch (pyStrip s) =
        { status := "error", message := some "Invalid URL", numbers := [] } := by
      unfold extract_phone_numbers
      rw [if_pos hn]
    rw [hpt i (some s) hc, processRow_nonblank fetch s hs, hinv]
    rfl

/-- Witness for c3_row_isolation at a concrete batch with a blank row, a
failing row and an invalid row. -/
theorem c3_witness :
    (runBatch (fun _ => FetchOutcome.requestException "down")
        [some " ", some "a.com", some "/x"]).length = 3 ∧
    (runBatch (fun _ => FetchOutcome.requestException "down")
        [some " ", some "a.com", some "/x"])[0]? =
      some { url := some " ", phone_numbers := "No URL provided",
             status := "skipped" } ∧
    (runBatch (fun _ => FetchOutcome.requestException "down")
        [some " ", some "a.com", some "/x"])[1]? =
      some { url := some "a.com",
             phone_numbers := "Error: Request failed: down",
             status := "error" } ∧
    (runBatch (fun _ => FetchOutcome.requestException "down")
        [some " ", some "a.com", some "/x"])[2]? =
      some { url := some "/x", phone_numbers := "Error: Invalid URL",
             status := "error" } := by
  have h := c3_row_isolation (fun _ => FetchOutcome.requestException "down")
    [some " ", some "a.com", some "/x"]
  refine ⟨h.1.trans (by decide), ?_, ?_, ?_⟩
  · exact (h.2.1 0 (some " ") rfl).trans (by decide)
  · exact (h.2.2.1 1 "a.com" "down" rfl (by decide) (by decide) rfl).trans
      (by decide)
  · exact (h.2.2.2 2 "/x" rfl (by decide) (by decide)).trans (by decide)

/-- C7: a missing or blank URL cell is recorded as skipped with
phone-string No URL provided, and the fetch oracle is never consulted for
that row: the result is the same for every oracle. -/
theorem c7_skip_blank (fetch fetch₂ : String → FetchOutcome)
    (cell : Option String)
    (h : cell = none ∨ ∃ s, cell = some s ∧ pyStrip s = "") :
    (processRow fetch cell).status = "skipped" ∧
    (processRow fetch cell).phone_numbers = "No URL provided" ∧
    processRow fetch cell = processRow fetch₂ cell := by
  rcases h with rfl | ⟨s, rfl, hs⟩
  · exact ⟨rfl, rfl, rfl⟩
  · rw [processRow_skip_blank fetch s hs, processRow_skip_blank fetch₂ s hs]
    exact ⟨rfl, rfl, rfl⟩

/-- Witness for c7_skip_blank at a concrete whitespace-only cell and two
oracles that disagree everywhere. -/
theorem c7_witness :
    ((some " \t " : Option String) = none ∨
      ∃ s, (some " \t " : Option String) = some s ∧ pyStrip s = "") ∧
    (processRow (fun _ => FetchOutcome.body "<p>555-123-4567</p>")
        (some " \t ")).status = "skipped" ∧
    processRow (fun _ => FetchOutcome.body "<p>555-123-4567</p>")
        (some " \t ") =
      processRow (fun _ => FetchOutcome.requestException "x") (some " \t ") := by
  have h := c7_skip_blank (fun _ => FetchOutcome.body "<p>555-123-4567</p>")
    (fun _ => FetchOutcome.requestException "x") (some " \t ")
    (Or.inr ⟨" \t ", rfl, by decide⟩)
  exact ⟨Or.inr ⟨" \t ", rfl, by decide⟩, h.1, h.2.2⟩

/-- C8: a URL without an http:// or https:// prefix is fetched at
https:// prepended to it; a URL whose normalized form has an empty netloc
yields the error result Invalid URL without the oracle being consulted;
and in general the result depends on the oracle only at the normalized
URL, which is therefore the only possible fetch target. -/
theorem c8_url_normalization (url : String) (fetch fetch₂ : String → FetchOutcome) :
    (startswith url "http://" = false → startswith url "https://" = false →
      normalizeUrl url = "https://" ++ url) ∧
    (netloc (normalizeUrl url) = "" →
      extract_phone_numbers fetch url =
        { status := "error", message := some "Invalid URL", numbers := [] } ∧
      extract_phone_numbers fetch url = extract_phone_numbers fetch₂ url) ∧
    (fetch (normalizeUrl url) = fetch₂ (normalizeUrl url) →
      extract_phone_numbers fetch url = extract_phone_numbers fetch₂ url) := by
  refine ⟨?_, ?_, ?_⟩
  · intro hh hs
    unfold normalizeUrl
    rw [hh, hs]
    simp
  · intro h
    have he : ∀ g : String → FetchOutcome, extract_phone_numbers g url =
        { status := "error", message := some "Invalid URL", numbers := [] } := by
      intro g
      unfold extract_phone_numbers
      rw [if_pos h]
    exact ⟨he fetch, (he fetch).trans (he fetch₂).symm⟩
  · intro h
    simp only [extract_phone_numbers]
    rw [h]

/-- Witness for c8_url_normalization at concrete URLs. -/
theorem c8_witness :
    (startswith "example.com" "http://" = false) ∧
    (startswith "example.com" "https://" = false) ∧
    normalizeUrl "example.com" = "https://" ++ "example.com" ∧
    netloc (normalizeUrl "") = "" ∧
    extract_phone_numbers (fun _ => FetchOutcome.body "x") "" =
      { status := "error", message := some "Invalid URL", numbers := [] } := by
  refine ⟨by decide, by decide, ?_, by decide, ?_⟩
  · exact (c8_url_normalization "example.com" (fun _ => FetchOutcome.body "x")
      (fun _ => FetchOutcome.body "x")).1 (by decide) (by decide)
  · exact ((c8_url_normalization "" (fun _ => FetchOutcome.body "x")
      (fun _ => FetchOutcome.body "x")).2.1 (by decide)).1

end PhoneExtract
